import Mathlib

/-!
Verification of the pmix spreadsheet core (`pmix/cell.py`, `pmix/worksheet.py`).

The Python source is shallowly embedded: spreadsheet floats become exact
rationals (`ℚ`), Python exceptions become `Except` error values, in-place
mutation of a worksheet becomes a returned worksheet, and generators become
fully materialised lists (a generator's first raised exception becomes the
`Except.error` of the whole sequence).
-/

namespace Pmix

/-- Truncation toward zero of a rational, as Python's `int(float)` computes it.
`Int.div` is T-division (rounds toward zero), and `q.num / q.den` is in lowest
terms, so this is exactly the integer part of `q`. -/
def ratTrunc (q : ℚ) : Int := Int.tdiv q.num q.den

/-- Floor of a rational via Lean's `Int.fdiv` (rounds toward negative infinity). -/
def ratFloor (q : ℚ) : Int := Int.fdiv q.num q.den

/-- Half-up rounding of a rational, standing in for the rounding the external
date decoder applies to the seconds fraction. -/
def ratRound (q : ℚ) : Int := ratFloor (q + 1/2)

/-- Calendar tuple `(year, month, day, hour, minute, second)` as produced by the
external date decoder (`xlrd.xldate_as_tuple`). -/
structure DateTuple where
  year : Nat
  month : Nat
  day : Nat
  hour : Nat
  minute : Nat
  second : Nat
deriving DecidableEq, Repr

/-- Test of `date_tuple[:3] == (0, 0, 0)` from the source: the date portion is
all-zero. -/
def datePartZero (t : DateTuple) : Bool :=
  t.year == 0 && t.month == 0 && t.day == 0

/-- Test of `date_tuple[3:] == (0, 0, 0)` from the source: the time portion is
all-zero. -/
def timePartZero (t : DateTuple) : Bool :=
  t.hour == 0 && t.minute == 0 && t.second == 0

/-- Gregorian calendar date from a count of days since 1970-01-01 (civil
day-count conversion; all intermediate quantities are shifted to stay in `Nat`). -/
def civilFromDays (z : Int) : Nat × Nat × Nat :=
  let zn : Nat := (z + 719468).toNat
  let era := zn / 146097
  let doe := zn % 146097
  let yoe := (doe - doe / 1460 + doe / 36524 - doe / 146096) / 365
  let y := yoe + era * 400
  let doy := doe - (365 * yoe + yoe / 4 - yoe / 100)
  let mp := (5 * doy + 2) / 153
  let d := doy - (153 * mp + 2) / 5 + 1
  let m := if mp < 10 then mp + 3 else mp - 9
  (if m ≤ 2 then y + 1 else y, m, d)

/-- Modelled from the spec: the external date decoder (xlrd's
`xldate_as_tuple`), which is not part of this repository. Per the spec, the raw
numeric date value is decoded against the date-system indicator (0 = 1900
system, 1 = modern/1904 system) into a calendar tuple `(year, month, day,
hour, minute, second)`; a raw value of `0.0` decodes to the all-zero tuple, a
pure fraction decodes to a time-only tuple, and a whole number of days to a
date tuple. Inputs the real decoder rejects (negative values; 1900-system
values below the leap-bug window) are totalised here to the zero tuple. -/
def xldate_as_tuple (xldate : ℚ) (datemode : Nat) : DateTuple :=
  if xldate ≤ 0 then ⟨0, 0, 0, 0, 0, 0⟩
  else
    let days0 := (ratTrunc xldate).toNat
    let secs0 := (ratRound ((xldate - (days0 : ℚ)) * 86400)).toNat
    let days := if 86400 ≤ secs0 then days0 + 1 else days0
    let secs := if 86400 ≤ secs0 then 0 else secs0
    let h := secs / 3600
    let mi := secs % 3600 / 60
    let s := secs % 60
    if days = 0 then ⟨0, 0, 0, h, mi, s⟩
    else
      let offset : Int := if datemode = 0 then -25569 else -24107
      let ymd := civilFromDays ((days : Int) + offset)
      ⟨ymd.1, ymd.2.1, ymd.2.2, h, mi, s⟩

/-- Normalised value held by a `Cell`: the closed variant from the spec's data
model, `{none, boolean, integer, float, text, date, time, datetime}`. -/
inductive Value where
  | none
  | bool (b : Bool)
  | int (n : Int)
  | float (q : ℚ)
  | str (s : String)
  | date (year month day : Nat)
  | time (hour minute second : Nat)
  | datetime (year month day hour minute second : Nat)
deriving DecidableEq, Repr

/-- Classifier: is this a time-only value (`datetime.time`)? -/
def Value.isTimeOnly : Value → Bool
  | .time _ _ _ => true
  | _ => false

/-- Classifier: is this a date-only value (`datetime.date`)? -/
def Value.isDateOnly : Value → Bool
  | .date _ _ _ => true
  | _ => false

/-- Classifier: is this a combined date-and-time value (`datetime.datetime`)? -/
def Value.isCombined : Value → Bool
  | .datetime _ _ _ _ _ _ => true
  | _ => false

/-- Raw payload of an `xlrd` cell: a float (numbers, dates, booleans and error
codes) or a string (text cells). The external reader guarantees the payload
type matches the tag, so the cross cases below are dead code. -/
inductive RawValue where
  | num (q : ℚ)
  | text (s : String)
deriving DecidableEq, Repr

/-- Payload accessor for the branches that treat `cell.value` as a float. The
`.text` case is unreachable under the external reader's tag/payload pairing. -/
def RawValue.asNum : RawValue → ℚ
  | .num q => q
  | .text _ => 0

/-- Payload accessor for the branch that treats `cell.value` as a string. The
`.num` case is unreachable under the external reader's tag/payload pairing. -/
def RawValue.asText : RawValue → String
  | .num _ => ""
  | .text s => s

/-- Rendering of a raw payload for the unhandled-cell message. The rendering of
a float delegates to the host language in the source; it is modelled here as
the rational's native rendering (no theorem depends on its exact form). -/
def RawValue.render : RawValue → String
  | .num q => toString q
  | .text s => s

/-- Raw tagged cell record as produced by `xlrd`: a numeric type tag `ctype`
plus a raw payload. -/
structure RawCell where
  ctype : Nat
  value : RawValue
deriving DecidableEq, Repr

def XL_CELL_EMPTY : Nat := 0
def XL_CELL_TEXT : Nat := 1
def XL_CELL_NUMBER : Nat := 2
def XL_CELL_DATE : Nat := 3
def XL_CELL_BOOLEAN : Nat := 4
def XL_CELL_ERROR : Nat := 5

/-- Error raised by `Cell.cell_value`: the source raises Python `TypeError`
with a message string (the spec calls this error kind `MalformedCellError`). -/
inductive CellError where
  | typeError (msg : String)
deriving DecidableEq, Repr

/-- Message of the error-cell branch, exactly as the source builds it: the
template has no format placeholders, so the trailing
`.format(cell.ctype, cell.value)` call leaves it unchanged and the raw tag and
value never reach the message. -/
def errorCellMsg : String :=
  "Error cell found. Please correct or erase error cell from file and try again.\n\nError cells are likely to be one of the following: #N/A, #NULL!, #DIV/0!, #VALUE!, #REF!, #NAME?, #NUM!, #GETTING_DATA"

/-- Message of the unhandled-tag branch: here the template does have two
placeholders, filled with the raw tag and value. -/
def unhandledMsg (ctype : Nat) (v : RawValue) : String :=
  "Unhandled cell exception.\nType: " ++ toString ctype ++ "\nValue: " ++ v.render

/-- Embedding of `Cell.cell_value` from `pmix/cell.py`: maps a raw tagged cell
to the normalised Python object, or raises (returns) a `TypeError` for error
and unrecognised tags. `datemode = Option.none` selects the modern date system
(1), and `stripstr` trims text. -/
def cell_value (cell : RawCell) (datemode : Option Nat) (stripstr : Bool) :
    Except CellError Value :=
  if cell.ctype = XL_CELL_BOOLEAN then
    .ok (.bool (cell.value == .num 1))
  else if cell.ctype = XL_CELL_EMPTY then
    .ok .none
  else if cell.ctype = XL_CELL_TEXT then
    .ok (.str (if stripstr then cell.value.asText.trim else cell.value.asText))
  else if cell.ctype = XL_CELL_NUMBER then
    let q := cell.value.asNum
    let int_val := ratTrunc q
    .ok (if (int_val : ℚ) = q then .int int_val else .float q)
  else if cell.ctype = XL_CELL_DATE then
    let dm := datemode.getD 1
    let t := xldate_as_tuple cell.value.asNum dm
    if datePartZero t then
      .ok (.time t.hour t.minute t.second)
    else if timePartZero t then
      .ok (.date t.year t.month t.day)
    else
      .ok (.datetime t.year t.month t.day t.hour t.minute t.second)
  else if cell.ctype = XL_CELL_ERROR then
    .error (.typeError errorCellMsg)
  else
    .error (.typeError (unhandledMsg cell.ctype cell.value))

/-- Raw sheet consumed from the external workbook reader: a name, plus the
raw rows in order (row-indexed access over `sheet.nrows`). -/
structure RawSheet where
  name : String
  rows : List (List RawCell)
deriving DecidableEq, Repr

/-- In-memory spreadsheet cell: a normalised value plus an optional highlight. -/
structure Cell where
  value : Value
  highlight : Option String
deriving DecidableEq, Repr

/-- A blank cell, `Cell()` in the source. -/
def blank : Cell := ⟨Value.none, Option.none⟩

/-- `Cell(v)` in the source: wrap a normalised value, no highlight. -/
def mkCell (v : Value) : Cell := ⟨v, Option.none⟩

/-- Two-digit zero padding, as Python's `datetime` rendering uses. -/
def pad2 (n : Nat) : String :=
  if n < 10 then "0" ++ toString n else toString n

/-- Four-digit zero padding for years. -/
def pad4 (n : Nat) : String :=
  if n < 10 then "000" ++ toString n
  else if n < 100 then "00" ++ toString n
  else if n < 1000 then "0" ++ toString n
  else toString n

/-- Native string form of a normalised value, modelling Python's `str(value)`.
The float case delegates to the host language in the source and is modelled as
the rational's native rendering (no theorem depends on its exact form). -/
def Value.render : Value → String
  | .none => "None"
  | .bool true => "True"
  | .bool false => "False"
  | .int n => toString n
  | .float q => toString q
  | .str s => s
  | .date y m d => pad4 y ++ "-" ++ pad2 m ++ "-" ++ pad2 d
  | .time h mi s => pad2 h ++ ":" ++ pad2 mi ++ ":" ++ pad2 s
  | .datetime y m d h mi s =>
      pad4 y ++ "-" ++ pad2 m ++ "-" ++ pad2 d ++ " " ++
        pad2 h ++ ":" ++ pad2 mi ++ ":" ++ pad2 s

/-- Embedding of `Cell.__str__`: the empty string for a `none` value, the
native string form otherwise. -/
def Cell.str (c : Cell) : String :=
  match c.value with
  | .none => ""
  | v => v.render

/-- Embedding of `Cell.is_blank`: true iff the value is `none` or `''`. -/
def Cell.is_blank (c : Cell) : Bool :=
  c.value == Value.none || c.value == Value.str ""

/-- Error-propagating map, materialising a Python loop or generator: elements
in order, the first raised exception aborting the whole sequence. -/
def mapME {ε α β : Type} (f : α → Except ε β) : List α → Except ε (List β)
  | [] => .ok []
  | a :: t => do
      let b ← f a
      let bs ← mapME f t
      pure (b :: bs)

/-- Embedding of `Cell.from_cell`: normalise the raw cell's value (text is
stripped, the default) and wrap it, with no highlight. -/
def from_cell (cell : RawCell) (datemode : Option Nat) :
    Except CellError Cell :=
  match cell_value cell datemode true with
  | .ok v => .ok (mkCell v)
  | .error e => .error e

/-- Errors raised by the worksheet operations. The source raises
`SpreadsheetError(msg)` for the integrity and width checks and the builtin
`KeyError`/`IndexError`/`TypeError`/`ValueError` for lookups; each constructor
carries exactly the data the source interpolates into the message, so
`widthMismatch` names both widths and `keyError` names the missing key. -/
inductive Err where
  | keyError (key : String)
  | indexError
  | typeError
  | valueError
  | inconsistentColumns
  | widthMismatch (ncol rowLen : Nat)
deriving DecidableEq, Repr

/-- In-memory worksheet: ordered rows of cells plus a sheet name. The process
wide auto-naming counter only chooses default names and is irrelevant to every
claim, so `name` is taken as given. -/
structure Worksheet where
  data : List (List Cell)
  name : String
deriving DecidableEq, Repr

/-- Embedding of `Worksheet.from_sheet`: rows in source order, every raw cell
normalised through `Cell.from_cell` with the workbook's date mode; a single
malformed cell aborts the whole conversion. -/
def from_sheet (sheet : RawSheet) (datemode : Option Nat) :
    Except CellError Worksheet :=
  match mapME (fun row => mapME (fun c => from_cell c datemode) row)
      sheet.rows with
  | .ok rows => .ok ⟨rows, sheet.name⟩
  | .error e => .error e

/-- Embedding of `Worksheet.ncol`: the shared row length, or a
`SpreadsheetError` when the set of row lengths has more than one element
(expressed as: some row's length differs from the first row's). -/
def ncol (ws : Worksheet) : Except Err Nat :=
  match ws.data with
  | [] => .ok 0
  | r :: rs =>
      if rs.all (fun line => line.length = r.length) then .ok r.length
      else .error .inconsistentColumns

/-- Embedding of `Worksheet.dim`: `(nrow, ncol)`, propagating the integrity
error from `ncol`. -/
def dim (ws : Worksheet) : Except Err (Nat × Nat) := do
  let c ← ncol ws
  .ok (ws.data.length, c)

/-- An element of a row passed to `prepend_row`: already a `Cell`, or a raw
value to be wrapped (`c if isinstance(c, Cell) else Cell(c)`). -/
inductive CellOrRaw where
  | cell (c : Cell)
  | raw (v : Value)
deriving DecidableEq, Repr

/-- Wrapping step of `prepend_row`: keep a `Cell`, wrap anything else. -/
def wrapCell : CellOrRaw → Cell
  | .cell c => c
  | .raw v => mkCell v

/-- Embedding of `Worksheet.prepend_row`. In-place mutation becomes a returned
worksheet; an error leaves the caller holding the unchanged original. With no
row and a non-empty table, a blank row of the first row's width is inserted at
index 0; with no row and an empty table, a single-cell blank row is appended;
a supplied row must match `ncol` or a width-mismatch error naming both widths
is raised. -/
def prepend_row (ws : Worksheet) (row : Option (List CellOrRaw)) :
    Except Err Worksheet :=
  match row with
  | Option.none =>
      match ws.data with
      | [] => .ok ⟨[[blank]], ws.name⟩
      | r0 :: _ => .ok ⟨(r0.map (fun _ => blank)) :: ws.data, ws.name⟩
  | some r =>
      match ncol ws with
      | .error e => .error e
      | .ok w =>
          if r.length ≠ w then .error (.widthMismatch w r.length)
          else .ok ⟨(r.map wrapCell) :: ws.data, ws.name⟩

/-- Embedding of `Worksheet.append_col`: every row grows by one cell; row 0
receives the header as its value, every other row a blank. No dimension is
ever queried, so the operation is total, even on ragged data. -/
def append_col (ws : Worksheet) (header : Value) : Worksheet :=
  match ws.data with
  | [] => ws
  | r :: rs =>
      ⟨(r ++ [mkCell header]) :: rs.map (fun row => row ++ [blank]), ws.name⟩

/-- Embedding of `Worksheet.column_headers`: the stringified cells of row 0,
or the empty sequence for an empty table. -/
def column_headers (ws : Worksheet) : List String :=
  match ws.data with
  | [] => []
  | r :: _ => r.map Cell.str

/-- Python list indexing: a negative index counts from the end; `some i` is
the resolved non-negative position, `none` means `IndexError`. -/
def pyIdx (n : Nat) (k : Int) : Option Nat :=
  let i := if k < 0 then k + n else k
  if 0 ≤ i ∧ i < n then some i.toNat else Option.none

/-- `xs[k]` with Python semantics over the embedding's error type. -/
def pyGet {α : Type} (xs : List α) (k : Int) : Except Err α :=
  match pyIdx xs.length k with
  | some i =>
      match xs.get? i with
      | some a => .ok a
      | Option.none => .error .indexError
  | Option.none => .error .indexError

/-- Python's `list.index` restricted to success-or-`None`: position of the
first occurrence of `s`. -/
def listIndex (l : List String) (s : String) : Option Nat :=
  match l with
  | [] => Option.none
  | h :: t => if h = s then some 0 else (listIndex t s).map (· + 1)

/-- Polymorphic key accepted by `column` and `column_pairs`: a string (header
lookup), an integer (column index), or a value of any other type. -/
inductive PyKey where
  | int (k : Int)
  | str (s : String)
  | other
deriving DecidableEq, Repr

/-- Embedding of `Worksheet.column`. The generator is materialised: a string
key is resolved through the headers (`ValueError` from `.index` is re-raised
as `KeyError(key)`), an integer key is used directly, any other key raises
`TypeError`; then each row is indexed in order, `IndexError` aborting the
sequence at the first offending row. -/
def column (ws : Worksheet) (key : PyKey) : Except Err (List Cell) :=
  match key with
  | .str s =>
      match listIndex (column_headers ws) s with
      | some i => mapME (fun row => pyGet row (Int.ofNat i)) ws.data
      | Option.none => .error (.keyError s)
  | .int k => mapME (fun row => pyGet row k) ws.data
  | .other => .error .typeError

/-- Column descriptor yielded by `column_pairs`: the `{row, col, header,
cell}` mapping of the source. -/
structure CellData where
  row : Nat
  col : Int
  header : String
  cell : Cell
deriving DecidableEq, Repr

/-- Resolution of one entry of `indices` (or of `base`) in `column_pairs`:
`i if isinstance(i, int) else headers.index(i)`; a missing header, or a key
that is neither int nor string, raises `ValueError` from `.index`. -/
def resolveKey (headers : List String) (k : PyKey) : Except Err Int :=
  match k with
  | .int i => .ok i
  | .str s =>
      match listIndex headers s with
      | some i => .ok (Int.ofNat i)
      | Option.none => .error .valueError
  | .other => .error .valueError

/-- Order-preserving deduplication used while resolving `indices`
(`if item not in result: result.append(item)`). -/
def dedupFirst (l : List Int) : List Int :=
  l.foldl (fun acc i => if acc.contains i then acc else acc ++ [i]) []

/-- Embedding of `Worksheet.column_pairs`, materialised. `indices` defaults to
all columns (querying `ncol`, so the integrity error propagates), entries are
resolved and deduplicated in order; an empty resolved list yields the empty
sequence; `base` defaults to the popped head of `indices` and is otherwise
resolved and removed from `indices` if present; then, for each row from
`start` on, one pair of `{row, col, header, cell}` descriptors per remaining
index, in row-major order. -/
def column_pairs (ws : Worksheet) (indices : Option (List PyKey))
    (base : Option PyKey) (start : Nat) :
    Except Err (List (CellData × CellData)) := do
  let headers := column_headers ws
  let inds0 : List Int ←
    match indices with
    | Option.none => do
        let c ← ncol ws
        pure ((List.range c).map Int.ofNat)
    | some ks => do
        let rs ← mapME (resolveKey headers) ks
        pure (dedupFirst rs)
  match inds0 with
  | [] => pure []
  | i0 :: rest => do
      let resolved : Int × List Int ←
        match base with
        | Option.none => pure (i0, rest)
        | some bk => do
            let bb ← resolveKey headers bk
            pure (bb, (i0 :: rest).erase bb)
      let b := resolved.1
      let inds := resolved.2
      let chunks ← mapME (fun p => do
        if p.1 < start then pure []
        else do
          let hb ← pyGet headers b
          let cb ← pyGet p.2 b
          let bd : CellData := ⟨p.1, b, hb, cb⟩
          mapME (fun j => do
            let hj ← pyGet headers j
            let cj ← pyGet p.2 j
            pure (bd, CellData.mk p.1 j hj cj)) inds) ws.data.enum
      pure chunks.flatten

/-- Is `c` a character that forces quoting of a csv field: the delimiter or a
line-terminator character? -/
def isStopChar (c : Char) : Bool :=
  c == ',' || c == '\r' || c == '\n'

/-- Modelled from the spec: the delimited export format. The source delegates
field encoding to the external csv writer (Python's `csv` module, minimal
quoting): a field is quoted iff it contains the delimiter, the quote
character, or a line-terminator character, or is the lone empty field of its
record. -/
def csvNeedsQuote (single : Bool) (f : List Char) : Bool :=
  f.any (fun c => isStopChar c || c == '"') || (single && f.isEmpty)

/-- Quote-escaping inside a quoted csv field: each quote character doubles. -/
def csvEscape : List Char → List Char
  | [] => []
  | c :: cs => if c = '"' then '"' :: '"' :: csvEscape cs else c :: csvEscape cs

/-- One encoded csv field; `single` marks the lone field of its record. -/
def csvField (single : Bool) (f : List Char) : List Char :=
  if csvNeedsQuote single f then '"' :: (csvEscape f ++ ['"']) else f

/-- Encoded tail fields of a multi-field record, comma-separated. -/
def csvRowMulti : List (List Char) → List Char
  | [] => []
  | [f] => csvField false f
  | f :: fs => csvField false f ++ ',' :: csvRowMulti fs

/-- One encoded csv record (without its line terminator). -/
def csvRow : List (List Char) → List Char
  | [] => []
  | [f] => csvField true f
  | f :: fs => csvField false f ++ ',' :: csvRowMulti fs

/-- Whole encoded csv text: each record followed by the writer's `\r\n`. -/
def csvWrite : List (List (List Char)) → List Char
  | [] => []
  | r :: rs => csvRow r ++ '\r' :: '\n' :: csvWrite rs

/-- Quoted-field tail scanner: content after the opening quote, with doubled
quotes collapsing; returns the field and the input after the closing quote. -/
def parseQuoted : List Char → List Char → List Char × List Char
  | [], acc => (acc.reverse, [])
  | c :: rest, acc =>
      if c = '"' then
        match rest with
        | [] => (acc.reverse, rest)
        | c2 :: rest2 =>
            if c2 = '"' then parseQuoted rest2 ('"' :: acc)
            else (acc.reverse, rest)
      else parseQuoted rest (c :: acc)

/-- Unquoted-field scanner: runs to the delimiter, a line terminator, or the
end of input, leaving the terminator unconsumed. -/
def parseUnquoted : List Char → List Char → List Char × List Char
  | [], acc => (acc.reverse, [])
  | c :: rest, acc =>
      if isStopChar c then (acc.reverse, c :: rest)
      else parseUnquoted rest (c :: acc)

/-- One csv field: quoted if it opens with a quote, unquoted otherwise. -/
def parseField (cs : List Char) : List Char × List Char :=
  match cs with
  | [] => ([], [])
  | c :: rest => if c = '"' then parseQuoted rest [] else parseUnquoted cs []

/-- Fields of one record: fields separated by commas, ended by `\r\n` or end
of input (the explicit length guard keeps the recursion well-founded; it holds
on every writer-produced input). -/
def parseFields (cs : List Char) : List (List Char) × List Char :=
  let p := parseField cs
  match p.2 with
  | [] => ([p.1], [])
  | c :: rest2 =>
      if c = ',' then
        if _h : rest2.length < cs.length then
          let q := parseFields rest2
          (p.1 :: q.1, q.2)
        else ([p.1], rest2)
      else if c = '\r' then
        match rest2 with
        | [] => ([p.1], c :: rest2)
        | c2 :: rest3 =>
            if c2 = '\n' then ([p.1], rest3) else ([p.1], c :: rest2)
      else ([p.1], c :: rest2)
termination_by cs.length

/-- One csv record: a blank line is the empty record (mirroring the reader,
which pairs with the writer's quoting of a lone empty field). -/
def parseRecord (cs : List Char) : List (List Char) × List Char :=
  if 2 ≤ cs.length ∧ cs.take 2 = ['\r', '\n'] then ([], cs.drop 2)
  else parseFields cs

/-- Modelled from the spec: re-reading the delimited export as strings, which
the repository leaves to the external csv reader. Records are parsed until the
input is exhausted (the explicit length guard keeps the recursion
well-founded; it holds on every writer-produced input). -/
def parseRecords (cs : List Char) : List (List (List Char)) :=
  if cs.isEmpty then []
  else
    let p := parseRecord cs
    if _h : p.2.length < cs.length then p.1 :: parseRecords p.2
    else [p.1]
termination_by cs.length

/-- Stringification applied by the external csv writer when handed raw cell
values (`strings=False`): `None` becomes the empty string, everything else its
native string form. -/
def writerStr (v : Value) : String :=
  match v with
  | .none => ""
  | v => v.render

/-- Embedding of `Worksheet.to_csv`: the bytes written to the file, as a
character list. In string mode every cell is written as `str(cell)`; otherwise
the raw value is handed to the external writer. -/
def to_csv_chars (ws : Worksheet) (strings : Bool) : List Char :=
  csvWrite (ws.data.map (fun row =>
    row.map (fun c => (if strings then c.str else writerStr c.value).toList)))

/-- Date classification following the spec as amended: time-only when the date
portion is all-zero (even when the time portion is also all-zero), date-only
when the time portion alone is all-zero, combined otherwise. Compared against
the embedded `cell_value` in the claim about date cells. -/
def spec_date_value (t : DateTuple) : Value :=
  if datePartZero t then .time t.hour t.minute t.second
  else if timePartZero t then .date t.year t.month t.day
  else .datetime t.year t.month t.day t.hour t.minute t.second

/-- Shape of the input remaining after a csv field on writer-produced text:
nothing, or a delimiter, or a record terminator. -/
def sepStart (rest : List Char) : Prop :=
  rest = [] ∨ (∃ cs, rest = ',' :: cs) ∨ (∃ cs, rest = '\r' :: cs)

/-! ### General lemmas about the embedding -/

theorem ncol_rect (ws : Worksheet) (W : Nat) (hne : ws.data ≠ [])
    (hrect : ∀ r ∈ ws.data, r.length = W) : ncol ws = .ok W := by
  cases h : ws.data with
  | nil => exact absurd h hne
  | cons r rs =>
      have hr : r.length = W := hrect r (h ▸ List.mem_cons_self r rs)
      have hall : rs.all (fun line => line.length = r.length) = true := by
        rw [List.all_eq_true]
        intro line hline
        have hl := hrect line (h ▸ List.mem_cons_of_mem r hline)
        exact decide_eq_true (by rw [hl, hr])
      simp [ncol, h, hall]
      exact hr

theorem mapME_ok_of {α β : Type} (l : List α) (f : α → Except Err β)
    (g : α → β) (h : ∀ x ∈ l, f x = .ok (g x)) :
    mapME f l = .ok (l.map g) := by
  induction l with
  | nil => rfl
  | cons a t ih =>
      have ha : f a = .ok (g a) := h a (List.mem_cons_self a t)
      have ht := ih (fun x hx => h x (List.mem_cons_of_mem a hx))
      simp [mapME, ha, ht, List.map_cons]
      rfl

theorem mapME_cons_err {α β : Type} (a : α) (l : List α)
    (f : α → Except Err β) (e : Err) (h : f a = .error e) :
    mapME f (a :: l) = .error e := by
  simp [mapME, h]
  rfl

theorem pyIdx_some_lt (n : Nat) (k : Int) (j : Nat) (h : pyIdx n k = some j) :
    j < n := by
  unfold pyIdx at h
  by_cases hk : k < 0 <;>
    simp only [hk, if_true, if_false] at h <;>
    split at h <;>
    first
      | (injection h with h; omega)
      | simp_all

theorem pyGet_some {α : Type} (xs : List α) (k : Int) (j : Nat) (d : α)
    (h : pyIdx xs.length k = some j) : pyGet xs k = .ok (xs.getD j d) := by
  have hj : j < xs.length := pyIdx_some_lt _ _ _ h
  unfold pyGet
  rw [h]
  simp [List.getElem?_eq_getElem hj]

theorem pyGet_none {α : Type} (xs : List α) (k : Int)
    (h : pyIdx xs.length k = Option.none) : pyGet xs k = .error .indexError := by
  unfold pyGet
  rw [h]

theorem listIndex_none_of_not_mem (l : List String) (s : String)
    (h : s ∉ l) : listIndex l s = Option.none := by
  induction l with
  | nil => rfl
  | cons a t ih =>
      have ha : a ≠ s := fun hh => h (hh ▸ List.mem_cons_self a t)
      have ht := ih (fun hh => h (List.mem_cons_of_mem a hh))
      simp [listIndex, ha, ht]

theorem listIndex_some_lt (l : List String) (s : String) (j : Nat)
    (h : listIndex l s = some j) : j < l.length := by
  induction l generalizing j with
  | nil => simp [listIndex] at h
  | cons a t ih =>
      rw [List.length_cons]
      by_cases ha : a = s
      · rw [listIndex, if_pos ha] at h
        injection h with h
        omega
      · rw [listIndex, if_neg ha] at h
        cases ht : listIndex t s with
        | none => rw [ht] at h; simp at h
        | some j2 =>
            rw [ht] at h
            simp only [Option.map_some'] at h
            injection h with h
            have h2 := ih j2 ht
            omega

theorem pyIdx_ofNat (n j : Nat) (h : j < n) : pyIdx n (Int.ofNat j) = some j := by
  unfold pyIdx
  rw [Int.ofNat_eq_natCast]
  have h1 : (((j : Int)) < 0) = False := by simp
  simp only [h1, if_false]
  rw [if_pos ⟨by omega, by omega⟩]
  simp

/-! ### Claim theorems -/

/-- C1: for every raw cell with the numeric tag, normalisation returns the
integer truncation of the raw float whenever that truncation equals the
float, and otherwise returns the raw float unchanged. -/
theorem numeric_cells_normalize_integral_floats (q : ℚ) (datemode : Option Nat)
    (stripstr : Bool) :
    cell_value ⟨XL_CELL_NUMBER, .num q⟩ datemode stripstr =
      .ok (if (ratTrunc q : ℚ) = q then .int (ratTrunc q) else .float q) := by
  simp [cell_value, XL_CELL_NUMBER, XL_CELL_BOOLEAN, XL_CELL_EMPTY,
    XL_CELL_TEXT, RawValue.asNum]

/-- C2 (amended): for every raw cell with the date tag, the normalised value
is the classification of the decoded calendar tuple: time-only when the date
portion is all-zero, date-only when the time portion is all-zero and the date
portion is not, combined otherwise; and the outcome always lies in exactly one
of the three categories. (The original claim made the time-portion-all-zero
case unconditionally date-only, which the all-zero tuple refutes.) -/
theorem date_cells_classify_decoded_tuple (q : ℚ) (datemode : Option Nat)
    (stripstr : Bool) :
    cell_value ⟨XL_CELL_DATE, .num q⟩ datemode stripstr =
      .ok (spec_date_value (xldate_as_tuple q (datemode.getD 1))) ∧
    ((if (spec_date_value (xldate_as_tuple q (datemode.getD 1))).isTimeOnly
        then 1 else 0) +
     (if (spec_date_value (xldate_as_tuple q (datemode.getD 1))).isDateOnly
        then 1 else 0) +
     (if (spec_date_value (xldate_as_tuple q (datemode.getD 1))).isCombined
        then 1 else 0) = 1) := by
  constructor
  · simp only [cell_value, XL_CELL_DATE, XL_CELL_BOOLEAN, XL_CELL_EMPTY,
      XL_CELL_TEXT, XL_CELL_NUMBER, RawValue.asNum, spec_date_value]
    norm_num
    split <;> first | rfl | (split <;> rfl)
  · set t := xldate_as_tuple q (datemode.getD 1) with ht
    by_cases h1 : datePartZero t <;> by_cases h2 : timePartZero t <;>
      simp [spec_date_value, h1, h2, Value.isTimeOnly, Value.isDateOnly,
        Value.isCombined]

/-- C2 counterexample: the raw date value `0.0` decodes to the all-zero tuple,
whose time portion is all-zero, yet the normalised value is the time-only
`time(0, 0, 0)`, not a date-only value, refuting the claim's unconditional
"date-only when the time portion is all-zero". -/
theorem date_zero_is_time_only_not_date_only :
    timePartZero (xldate_as_tuple 0 1) = true ∧
    cell_value ⟨XL_CELL_DATE, .num 0⟩ Option.none true = .ok (.time 0 0 0) ∧
    Value.isDateOnly (.time 0 0 0) = false :=
  ⟨rfl, rfl, rfl⟩

/-- C3: the error-tag branch raises the malformed-cell error with a constant
message — the source's `.format(cell.ctype, cell.value)` call has no
placeholders to fill, so two error cells with different raw values produce the
identical error and the raw tag and value are not carried; unrecognised tags
raise the same error kind (and there the message does carry tag and value). -/
theorem error_cells_raise_constant_message :
    cell_value ⟨XL_CELL_ERROR, .num 7⟩ Option.none true =
      .error (.typeError errorCellMsg) ∧
    cell_value ⟨XL_CELL_ERROR, .num 42⟩ Option.none true =
      .error (.typeError errorCellMsg) ∧
    cell_value ⟨99, .num 7⟩ Option.none true =
      .error (.typeError (unhandledMsg 99 (.num 7))) :=
  ⟨rfl, rfl, rfl⟩

/-- C4 counterexample: a non-rectangular worksheet (rows of lengths 1 and 2,
so `ncol` raises the table-integrity error) on which `append_col` nevertheless
completes, appending a header cell to row 0 and a blank to the other row. -/
theorem append_col_succeeds_on_ragged_worksheet :
    ncol ⟨[[blank], [blank, blank]], "s"⟩ = .error .inconsistentColumns ∧
    append_col ⟨[[blank], [blank, blank]], "s"⟩ (.str "H") =
      ⟨[[blank, mkCell (.str "H")], [blank, blank, blank]], "s"⟩ :=
  ⟨rfl, rfl⟩

/-- C4 (amended): `append_col` performs no rectangularity check at all: on
every worksheet — rectangular or not — it completes, extending each row by
one cell, the header value in row 0 and a blank everywhere else. -/
theorem append_col_total_row_extension (ws : Worksheet) (header : Value) :
    (append_col ws header).name = ws.name ∧
    ∀ i : Nat, (append_col ws header).data[i]? =
      (ws.data[i]?).map
        (fun r => r ++ [if i = 0 then mkCell header else blank]) := by
  cases h : ws.data with
  | nil =>
      refine ⟨by simp [append_col, h], fun i => ?_⟩
      simp [append_col, h]
  | cons r rs =>
      refine ⟨by simp [append_col, h], fun i => ?_⟩
      cases i with
      | zero => simp [append_col, h]
      | succ i => simp [append_col, h, List.getElem?_map]

/-- C5: `dim()` returns `(0, 0)` on a worksheet with no rows; returns
`(row count, L)` when all rows share length `L`; and raises the
table-integrity error when two rows have different lengths. -/
theorem dim_reports_shape_or_integrity_error (ws : Worksheet) :
    (ws.data = [] → dim ws = .ok (0, 0)) ∧
    (∀ L : Nat, ws.data ≠ [] → (∀ r ∈ ws.data, r.length = L) →
      dim ws = .ok (ws.data.length, L)) ∧
    ((∃ r ∈ ws.data, ∃ r2 ∈ ws.data, r.length ≠ r2.length) →
      dim ws = .error .inconsistentColumns) := by
  refine ⟨fun h => ?_, fun L hne hrect => ?_, fun ⟨r1, h1, r2, h2, hne⟩ => ?_⟩
  · simp [dim, ncol, h]
    rfl
  · unfold dim
    rw [ncol_rect ws L hne hrect]
    rfl
  · cases h : ws.data with
    | nil => rw [h] at h1; simp at h1
    | cons r rs =>
        have hallf : rs.all (fun line => line.length = r.length) = false := by
          by_contra hc
          have hall := List.all_eq_true.mp (Bool.not_eq_false _ ▸ hc)
          have hshared : ∀ x ∈ ws.data, x.length = r.length := by
            intro x hx
            rw [h] at hx
            rcases List.mem_cons.mp hx with hx | hx
            · rw [hx]
            · exact of_decide_eq_true (hall x hx)
          exact hne ((hshared r1 h1).trans (hshared r2 h2).symm)
        simp [dim, ncol, h, hallf]
        rfl

/-- C5 witness: `dim` evaluated on an empty worksheet, a rectangular 3×2
worksheet, and a ragged worksheet with row lengths 3 and 4. -/
theorem dim_reports_shape_or_integrity_error_witness :
    dim ⟨[], "e"⟩ = .ok (0, 0) ∧
    dim ⟨[[blank, blank], [blank, blank], [blank, blank]], "s"⟩ = .ok (3, 2) ∧
    dim ⟨[[blank, blank, blank], [blank, blank, blank, blank]], "t"⟩ =
      .error .inconsistentColumns :=
  ⟨(dim_reports_shape_or_integrity_error _).1 rfl,
   (dim_reports_shape_or_integrity_error _).2.1 2 (by decide) (by decide),
   (dim_reports_shape_or_integrity_error _).2.2
     ⟨[blank, blank, blank], by decide, [blank, blank, blank, blank],
       by decide, by decide⟩⟩

/-- C6: on a 3-row, 3-column worksheet, `column_pairs` with all-default
arguments yields, for each row in order, exactly two pairs — (base descriptor
for column 0, descriptor for column 1) then (base descriptor for column 0,
descriptor for column 2) — each descriptor carrying the row index, the column
index, the header (the stringified row-0 cell of that column) and the cell. -/
theorem column_pairs_default_on_3x3 (nm : String) (a b c d e f g h i : Cell) :
    column_pairs ⟨[[a, b, c], [d, e, f], [g, h, i]], nm⟩
        Option.none Option.none 0 =
      .ok [(⟨0, 0, a.str, a⟩, ⟨0, 1, b.str, b⟩),
           (⟨0, 0, a.str, a⟩, ⟨0, 2, c.str, c⟩),
           (⟨1, 0, a.str, d⟩, ⟨1, 1, b.str, e⟩),
           (⟨1, 0, a.str, d⟩, ⟨1, 2, c.str, f⟩),
           (⟨2, 0, a.str, g⟩, ⟨2, 1, b.str, h⟩),
           (⟨2, 0, a.str, g⟩, ⟨2, 2, c.str, i⟩)] :=
  rfl

/-- C8: on a non-empty rectangular worksheet of width `W`, `prepend_row` with
no argument inserts an all-blank row of width `W` at index 0, keeping every
existing row; and with a row of the wrong length it fails with the
width-mismatch error carrying both widths (the worksheet the caller holds is
unchanged, the operation having produced no new state). -/
theorem prepend_row_blank_or_width_mismatch (ws : Worksheet) (W : Nat)
    (hne : ws.data ≠ []) (hrect : ∀ r ∈ ws.data, r.length = W) :
    prepend_row ws Option.none =
      .ok ⟨List.replicate W blank :: ws.data, ws.name⟩ ∧
    ∀ row : List CellOrRaw, row.length ≠ W →
      prepend_row ws (some row) = .error (.widthMismatch W row.length) := by
  constructor
  · cases h : ws.data with
    | nil => exact absurd h hne
    | cons r rs =>
        have hr : r.length = W := hrect r (h ▸ List.mem_cons_self r rs)
        simp only [prepend_row, h]
        rw [show (r.map fun _ => blank) = List.replicate W blank by
          rw [List.map_const', hr]]
  · intro row hlen
    simp only [prepend_row]
    rw [ncol_rect ws W hne hrect]
    simp [hlen]

/-- C8 witness: `prepend_row` on a concrete 2-row, 3-column worksheet, with no
argument and with a 2-element row. -/
theorem prepend_row_blank_or_width_mismatch_witness :
    prepend_row ⟨[[blank, blank, blank], [blank, blank, blank]], "s"⟩
        Option.none =
      .ok ⟨List.replicate 3 blank ::
            [[blank, blank, blank], [blank, blank, blank]], "s"⟩ ∧
    prepend_row ⟨[[blank, blank, blank], [blank, blank, blank]], "s"⟩
        (some [.raw (.int 1), .raw (.int 2)]) =
      .error (.widthMismatch 3 2) :=
  ⟨(prepend_row_blank_or_width_mismatch _ 3 (by decide) (by decide)).1,
   (prepend_row_blank_or_width_mismatch _ 3 (by decide) (by decide)).2
     [.raw (.int 1), .raw (.int 2)] (by decide)⟩

/-- C7 counterexample: on a worksheet with no rows, the integer key 5 is not a
valid column index (there are no columns at all), yet `column` succeeds and
yields the empty sequence instead of failing with an out-of-range error. -/
theorem column_invalid_index_on_empty_worksheet_succeeds :
    column ⟨[], "s"⟩ (.int 5) = .ok [] :=
  rfl

/-- C7 (amended): `column(key)` with a string key absent from the headers
fails with the not-found error naming the key; with a key of any other type it
fails with the type-mismatch error; an integer key that is not a valid column
index fails with the out-of-range error provided the worksheet has at least
one row, while on a worksheet with no rows any integer key yields the empty
sequence; and a valid key (an in-range integer, possibly negative in Python's
sense, or a present header) yields the cells of that column from first row to
last. -/
theorem column_key_resolution (ws : Worksheet) (W : Nat)
    (hrect : ∀ r ∈ ws.data, r.length = W) :
    (∀ s : String, s ∉ column_headers ws →
      column ws (.str s) = .error (.keyError s)) ∧
    (column ws .other = .error .typeError) ∧
    (ws.data = [] → ∀ k : Int, column ws (.int k) = .ok []) ∧
    (ws.data ≠ [] → ∀ k : Int, pyIdx W k = Option.none →
      column ws (.int k) = .error .indexError) ∧
    (∀ k : Int, ∀ j : Nat, pyIdx W k = some j →
      column ws (.int k) = .ok (ws.data.map (fun r => r.getD j blank))) ∧
    (∀ s : String, ∀ j : Nat, listIndex (column_headers ws) s = some j →
      column ws (.str s) = .ok (ws.data.map (fun r => r.getD j blank))) := by
  refine ⟨fun s hs => ?_, rfl, fun h k => ?_, fun hne k hk => ?_,
    fun k j hj => ?_, fun s j hjs => ?_⟩
  · simp [column, listIndex_none_of_not_mem _ _ hs]
  · simp [column, h]
    rfl
  · cases h : ws.data with
    | nil => exact absurd h hne
    | cons r rs =>
        have hrW : r.length = W := hrect r (h ▸ List.mem_cons_self r rs)
        have hfail : pyGet r k = .error .indexError :=
          pyGet_none r k (by rw [hrW]; exact hk)
        simp only [column, h]
        exact mapME_cons_err _ _ _ _ hfail
  · simp only [column]
    refine mapME_ok_of _ _ _ (fun r hr => ?_)
    exact pyGet_some r k j blank (by rw [hrect r hr]; exact hj)
  · simp only [column, hjs]
    have hjW : j < W := by
      cases h : ws.data with
      | nil =>
          rw [listIndex_none_of_not_mem _ s (by simp [column_headers, h])]
            at hjs
          exact absurd hjs (by simp)
      | cons r rs =>
          have := listIndex_some_lt _ _ _ hjs
          have hlen : (column_headers ws).length = r.length := by
            simp [column_headers, h]
          have hrW : r.length = W := hrect r (h ▸ List.mem_cons_self r rs)
          omega
    refine mapME_ok_of _ _ _ (fun r hr => ?_)
    exact pyGet_some r (Int.ofNat j) j blank
      (by rw [hrect r hr]; exact pyIdx_ofNat W j hjW)

/-- C7 witness: `column` evaluated on a concrete 2-row, 2-column worksheet
with headers `A`, `B` — absent header `Z`, a non-string non-int key, the
out-of-range index 5, the valid index 1 and the present header `B` — and on
the empty worksheet with the invalid index 5. -/
theorem column_key_resolution_witness :
    column ⟨[[mkCell (.str "A"), mkCell (.str "B")],
            [mkCell (.int 1), mkCell (.int 2)]], "s"⟩ (.str "Z") =
      .error (.keyError "Z") ∧
    column ⟨[[mkCell (.str "A"), mkCell (.str "B")],
            [mkCell (.int 1), mkCell (.int 2)]], "s"⟩ .other =
      .error .typeError ∧
    column ⟨[], "e"⟩ (.int 5) = .ok [] ∧
    column ⟨[[mkCell (.str "A"), mkCell (.str "B")],
            [mkCell (.int 1), mkCell (.int 2)]], "s"⟩ (.int 5) =
      .error .indexError ∧
    column ⟨[[mkCell (.str "A"), mkCell (.str "B")],
            [mkCell (.int 1), mkCell (.int 2)]], "s"⟩ (.int 1) =
      .ok [mkCell (.str "B"), mkCell (.int 2)] ∧
    column ⟨[[mkCell (.str "A"), mkCell (.str "B")],
            [mkCell (.int 1), mkCell (.int 2)]], "s"⟩ (.str "B") =
      .ok [mkCell (.str "B"), mkCell (.int 2)] :=
  ⟨(column_key_resolution _ 2 (by decide)).1 "Z" (by decide),
   (column_key_resolution _ 2 (by decide)).2.1,
   (column_key_resolution ⟨[], "e"⟩ 0 (by decide)).2.2.1 rfl 5,
   (column_key_resolution _ 2 (by decide)).2.2.2.1 (by decide) 5 (by decide),
   (column_key_resolution _ 2 (by decide)).2.2.2.2.1 1 1 (by decide),
   (column_key_resolution _ 2 (by decide)).2.2.2.2.2 "B" 1 (by decide)⟩

/-- C10: on a worksheet with zero rows, `append_col` succeeds with any header,
leaves the worksheet unchanged (so `dim` still reports `(0, 0)`), and the
header value is silently discarded — no header row is created. -/
theorem append_col_on_empty_worksheet_is_noop (nm : String) (header : Value) :
    append_col ⟨[], nm⟩ header = ⟨[], nm⟩ ∧
    dim ⟨[], nm⟩ = .ok (0, 0) :=
  ⟨rfl, rfl⟩

/-! ### Round-trip of the delimited export -/

theorem sepStart_head_ne_quote (rest : List Char) (h : sepStart rest) :
    rest = [] ∨ ∃ c cs, rest = c :: cs ∧ c ≠ '"' := by
  rcases h with h | ⟨cs, h⟩ | ⟨cs, h⟩
  · exact Or.inl h
  · exact Or.inr ⟨',', cs, h, by decide⟩
  · exact Or.inr ⟨'\r', cs, h, by decide⟩

theorem parseUnquoted_spec (f : List Char) (rest acc : List Char)
    (hf : ∀ c ∈ f, isStopChar c = false) (hr : sepStart rest) :
    parseUnquoted (f ++ rest) acc = (acc.reverse ++ f, rest) := by
  induction f generalizing acc with
  | nil =>
      rcases hr with h | ⟨cs, h⟩ | ⟨cs, h⟩ <;> subst h <;>
        simp [parseUnquoted, isStopChar]
  | cons c f ih =>
      have hc : isStopChar c = false := hf c (List.mem_cons_self c f)
      simp only [List.cons_append, parseUnquoted, hc, Bool.false_eq_true,
        if_false, List.append_eq]
      rw [ih (c :: acc) (fun x hx => hf x (List.mem_cons_of_mem c hx))]
      simp

theorem parseQuoted_cons_ne (c : Char) (rest acc : List Char)
    (hc : ¬ c = '"') :
    parseQuoted (c :: rest) acc = parseQuoted rest (c :: acc) := by
  cases rest <;> simp [parseQuoted, hc]

theorem parseQuoted_spec (f : List Char) (rest acc : List Char)
    (hr : rest = [] ∨ ∃ c cs, rest = c :: cs ∧ c ≠ '"') :
    parseQuoted (csvEscape f ++ '"' :: rest) acc = (acc.reverse ++ f, rest) := by
  induction f generalizing acc with
  | nil =>
      rcases hr with h | ⟨c, cs, h, hc⟩ <;> subst h
      · simp [csvEscape, parseQuoted]
      · simp [csvEscape, parseQuoted, hc]
  | cons a f ih =>
      by_cases ha : a = '"'
      · subst ha
        have hesc : csvEscape ('"' :: f) ++ '"' :: rest =
            '"' :: ('"' :: (csvEscape f ++ '"' :: rest)) := by
          simp [csvEscape]
        rw [hesc]
        simp only [parseQuoted, if_pos rfl]
        rw [ih ('"' :: acc)]
        simp
      · have hesc : csvEscape (a :: f) ++ '"' :: rest =
            a :: (csvEscape f ++ '"' :: rest) := by
          simp [csvEscape, ha]
        rw [hesc, parseQuoted_cons_ne a _ acc ha]
        rw [ih (a :: acc)]
        simp

theorem csvNeedsQuote_false_clean (single : Bool) (f : List Char)
    (h : csvNeedsQuote single f = false) :
    ∀ c ∈ f, isStopChar c = false ∧ c ≠ '"' := by
  intro c hc
  unfold csvNeedsQuote at h
  rw [Bool.or_eq_false_iff] at h
  have h1 := List.any_eq_false.mp h.1 c hc
  rw [Bool.not_eq_true, Bool.or_eq_false_iff] at h1
  refine ⟨h1.1, fun hq => ?_⟩
  have h2 := h1.2
  rw [hq] at h2
  simp at h2

theorem parseField_spec (single : Bool) (f rest : List Char)
    (hr : sepStart rest) :
    parseField (csvField single f ++ rest) = (f, rest) := by
  unfold csvField
  by_cases hq : csvNeedsQuote single f
  · rw [if_pos hq]
    have hshape : ('"' :: (csvEscape f ++ ['"'])) ++ rest =
        '"' :: (csvEscape f ++ '"' :: rest) := by
      simp
    rw [hshape]
    simp only [parseField, if_pos rfl]
    rw [parseQuoted_spec f rest [] (sepStart_head_ne_quote rest hr)]
    simp
  · rw [if_neg hq]
    have hclean := csvNeedsQuote_false_clean single f
      (Bool.eq_false_iff.mpr hq)
    cases f with
    | nil =>
        rcases hr with h | ⟨cs, h⟩ | ⟨cs, h⟩ <;> subst h <;>
          simp [parseField, parseUnquoted, isStopChar]
    | cons c f2 =>
        have hc := hclean c (List.mem_cons_self c f2)
        have hstep : parseField ((c :: f2) ++ rest) =
            parseUnquoted ((c :: f2) ++ rest) [] := by
          simp only [List.cons_append, parseField, hc.2, if_false]
        rw [hstep]
        rw [parseUnquoted_spec (c :: f2) rest []
          (fun x hx => (hclean x hx).1) hr]
        simp

theorem parseFields_single_spec (single : Bool) (f : List Char)
    (rest : List Char) :
    parseFields (csvField single f ++ '\r' :: '\n' :: rest) = ([f], rest) := by
  rw [parseFields]
  have h1 : parseField (csvField single f ++ '\r' :: '\n' :: rest) =
      (f, '\r' :: '\n' :: rest) :=
    parseField_spec single f _ (Or.inr (Or.inr ⟨_, rfl⟩))
  simp only [h1]
  rw [if_neg (by decide : ¬ (('\r' : Char) = ','))]
  simp

theorem parseFields_multi_spec (fs : List (List Char)) (hfs : fs ≠ [])
    (rest : List Char) :
    parseFields (csvRowMulti fs ++ '\r' :: '\n' :: rest) = (fs, rest) := by
  induction fs with
  | nil => exact absurd rfl hfs
  | cons f fs ih =>
      cases fs with
      | nil =>
          simp only [csvRowMulti]
          exact parseFields_single_spec false f rest
      | cons g gs =>
          have hshape : csvRowMulti (f :: g :: gs) ++ '\r' :: '\n' :: rest =
              csvField false f ++
                (',' :: (csvRowMulti (g :: gs) ++ '\r' :: '\n' :: rest)) := by
            simp [csvRowMulti]
          rw [hshape, parseFields]
          have h1 : parseField (csvField false f ++
              (',' :: (csvRowMulti (g :: gs) ++ '\r' :: '\n' :: rest))) =
              (f, ',' :: (csvRowMulti (g :: gs) ++ '\r' :: '\n' :: rest)) :=
            parseField_spec false f _ (Or.inr (Or.inl ⟨_, rfl⟩))
          simp only [h1]
          have hlen : (csvRowMulti (g :: gs) ++ '\r' :: '\n' :: rest).length <
              (csvField false f ++
                (',' :: (csvRowMulti (g :: gs) ++
                  '\r' :: '\n' :: rest))).length := by
            simp
            omega
          rw [dif_pos hlen, ih (by simp)]
          simp

theorem parseFields_row_spec (r : List (List Char)) (hr : r ≠ [])
    (rest : List Char) :
    parseFields (csvRow r ++ '\r' :: '\n' :: rest) = (r, rest) := by
  cases r with
  | nil => exact absurd rfl hr
  | cons f fs =>
      cases fs with
      | nil =>
          simp only [csvRow]
          exact parseFields_single_spec true f rest
      | cons g gs =>
          have hshape : csvRow (f :: g :: gs) = csvRowMulti (f :: g :: gs) := by
            simp [csvRow, csvRowMulti]
          rw [hshape]
          exact parseFields_multi_spec _ (by simp) rest

theorem csvField_head_ne_cr (single : Bool) (f : List Char) (t2 : List Char)
    (hcase : f ≠ [] ∨ csvNeedsQuote single f = true ∨
      (∃ c2 cs2, t2 = c2 :: cs2 ∧ c2 ≠ '\r')) :
    ∃ c cs, csvField single f ++ t2 = c :: cs ∧ c ≠ '\r' := by
  unfold csvField
  by_cases hq : csvNeedsQuote single f
  · rw [if_pos hq]
    exact ⟨'"', _, rfl, by decide⟩
  · rw [if_neg hq]
    have hclean := csvNeedsQuote_false_clean single f (Bool.eq_false_iff.mpr hq)
    cases f with
    | nil =>
        rcases hcase with h | h | ⟨c2, cs2, ht, hc2⟩
        · exact absurd rfl h
        · exact absurd h (by simp [Bool.eq_false_iff.mpr hq])
        · exact ⟨c2, cs2, by rw [List.nil_append, ht], hc2⟩
    | cons c f2 =>
        have hc := hclean c (List.mem_cons_self c f2)
        refine ⟨c, f2 ++ t2, by simp, fun hcr => ?_⟩
        have := hc.1
        rw [hcr] at this
        simp [isStopChar] at this

theorem csvRow_head_ne_cr (r : List (List Char)) (hr : r ≠ [])
    (tail : List Char) :
    ∃ c cs, csvRow r ++ tail = c :: cs ∧ c ≠ '\r' := by
  cases r with
  | nil => exact absurd rfl hr
  | cons f fs =>
      cases fs with
      | nil =>
          simp only [csvRow]
          refine csvField_head_ne_cr true f tail ?_
          by_cases hf : f = []
          · subst hf
            exact Or.inr (Or.inl rfl)
          · exact Or.inl hf
      | cons g gs =>
          simp only [csvRow]
          rw [List.append_assoc]
          exact csvField_head_ne_cr false f _
            (Or.inr (Or.inr ⟨',', _, rfl, by decide⟩))

theorem parseRecord_not_blank (cs : List Char) (c : Char) (cs2 : List Char)
    (heq : cs = c :: cs2) (hc : c ≠ '\r') :
    parseRecord cs = parseFields cs := by
  unfold parseRecord
  rw [if_neg]
  intro ⟨_, ht⟩
  rw [heq, List.take_succ_cons] at ht
  injection ht with h1 _
  exact hc h1

theorem csvWrite_roundtrip (rows : List (List (List Char))) :
    parseRecords (csvWrite rows) = rows := by
  induction rows with
  | nil =>
      rw [show csvWrite ([] : List (List (List Char))) = [] from rfl,
        parseRecords]
      simp
  | cons r rs ih =>
      by_cases hr : r = []
      · subst hr
        show parseRecords ('\r' :: '\n' :: csvWrite rs) = [] :: rs
        rw [parseRecords]
        have hrec : parseRecord ('\r' :: '\n' :: csvWrite rs) =
            ([], csvWrite rs) := by
          unfold parseRecord
          rw [if_pos ⟨by simp, rfl⟩]
          rfl
        simp only [hrec, List.isEmpty_cons, Bool.false_eq_true, if_false]
        rw [dif_pos (by simp only [List.length_cons]; omega)]
        rw [ih]
      · show parseRecords (csvRow r ++ '\r' :: '\n' :: csvWrite rs) = r :: rs
        obtain ⟨c, cs, heq, hc⟩ :=
          csvRow_head_ne_cr r hr ('\r' :: '\n' :: csvWrite rs)
        rw [parseRecords]
        have hrec : parseRecord (csvRow r ++ '\r' :: '\n' :: csvWrite rs) =
            (r, csvWrite rs) := by
          rw [parseRecord_not_blank _ c cs heq hc]
          exact parseFields_row_spec r hr (csvWrite rs)
        have hne : (csvRow r ++ '\r' :: '\n' :: csvWrite rs).isEmpty = false := by
          rw [heq]
          rfl
        simp only [hrec, hne, Bool.false_eq_true, if_false]
        rw [dif_pos (by
          simp only [List.length_append, List.length_cons]
          omega)]
        rw [ih]

/-- C9: writing a worksheet to the delimited export in string mode and
re-reading that export reproduces, for every row and column, exactly the
cell's string representation — the empty string for a `none`-valued cell, the
native string form otherwise. Proved for every worksheet (so in particular
for every worksheet built from a raw sheet). -/
theorem to_csv_string_roundtrip (ws : Worksheet) :
    parseRecords (to_csv_chars ws true) =
      ws.data.map (fun row => row.map (fun c => c.str.toList)) := by
  unfold to_csv_chars
  simp only [if_pos rfl]
  exact csvWrite_roundtrip _

end Pmix
